import Mathlib

/-!
Verification of the spec-driven-development core of PromptToProduct:
the parse → validate → generate pipeline (src/spec-parser.js,
src/spec-validator.js, src/test-generator.js), shallowly embedded.

JavaScript strings are modelled as Lean `String` (operated on through
`String.data : List Char`); absent object fields are `Option.none`;
JS truthiness of possibly-absent strings is `truthyS`.  The third-party
YAML decoder (`require('yaml')`) is not part of the repository, so every
function that calls `YAML.parse` is parameterised by an abstract decoder
`dec : String → Except String (Option Spec)`; `Except.error m` models the
decoder throwing with message `m`, `Except.ok none` models a successful
decode producing the JS value `null` (as `YAML.parse ''` does), and
`Except.ok (some s)` a decoded document.
-/

namespace P2P

/-! ### JS string primitives on `List Char` -/

/-- Does `s` begin with `pat`?  (`List.isPrefixOf` with explicit equality.) -/
def leadsWith : List Char → List Char → Bool
  | [], _ => true
  | _ :: _, [] => false
  | p :: ps, c :: cs => p == c && leadsWith ps cs

/-- JS `String.prototype.includes`: `pat` occurs as a contiguous run in `s`. -/
def containsL (s pat : List Char) : Bool :=
  match s with
  | [] => pat.isEmpty
  | _ :: t => leadsWith pat s || containsL t pat

/-- JS `String.prototype.split` with a single-character separator. -/
def splitOnCh (sep : Char) : List Char → List (List Char)
  | [] => [[]]
  | c :: rest =>
    match splitOnCh sep rest with
    | [] => [[]]
    | l :: ls => if c == sep then [] :: l :: ls else (c :: l) :: ls

/-- JS `Array.prototype.join` with a single-character separator. -/
def joinCh (sep : Char) : List (List Char) → List Char
  | [] => []
  | [l] => l
  | l :: ls => l ++ sep :: joinCh sep ls

/-- JS `String.prototype.trim` (whitespace at both ends removed). -/
def trimL (cs : List Char) : List Char :=
  ((cs.dropWhile Char.isWhitespace).reverse.dropWhile Char.isWhitespace).reverse

/-- JS `String.prototype.toLowerCase` (ASCII range, which is all the code uses). -/
def lowerL (cs : List Char) : List Char := cs.map Char.toLower

/-- `content.split('\n')`, on character lists. -/
def splitLines : List Char → List (List Char)
  | [] => [[]]
  | c :: rest =>
    match splitLines rest with
    | [] => [[]]
    | l :: ls => if c == '\n' then [] :: l :: ls else (c :: l) :: ls

/-- String-level wrapper for `containsL` (JS `includes`). -/
def hasSub (s pat : String) : Bool := containsL s.data pat.data

/-- `filename.split('.').pop().toLowerCase()` — the format hint used by both
`SpecParser.parse` and `SpecValidator.validate`. -/
def extOf (filename : String) : String :=
  String.mk (lowerL (((splitOnCh '.' filename.data).getLastD [])))

/-! ### The canonical Specification model (decoded YAML document shape)

Fields are `Option`s because a decoded YAML document (or a JS object) may
lack any of them; `none` is JS `undefined`. -/

/-- JS truthiness of a possibly-absent string field: `undefined` and `''`
are falsy, everything else truthy. -/
def truthyS : Option String → Bool
  | none => false
  | some s => !s.isEmpty

structure Requirement where
  id : Option String
  description : Option String
  priority : Option String
  status : Option String
deriving DecidableEq, Repr

structure UserStory where
  id : Option String
  as_a : Option String
  i_want : Option String
  so_that : Option String
  acceptance_criteria : Option (List String)
deriving DecidableEq, Repr

structure TestCase where
  id : Option String
  description : Option String
  preconditions : Option String
  steps : Option (List String)
  expected_result : Option String
deriving DecidableEq, Repr

structure Requirements where
  functional : Option (List Requirement)
  non_functional : Option (List Requirement)
deriving DecidableEq, Repr

structure Spec where
  name : Option String
  description : Option String
  requirements : Option Requirements
  user_stories : Option (List UserStory)
  test_cases : Option (List TestCase)
deriving DecidableEq, Repr

/-! ### Markdown parser (`SpecParser.parseMarkdown`)

A single-pass line scanner.  The JS regexes are hand-compiled to scanners
with the same leftmost-match / greedy-with-backtracking semantics:
`.` is any character except a line terminator, `\s` is whitespace,
`\d` a decimal digit. -/

/-- A character matched by `.` in a JS regex (no line terminators). -/
def dotChar (c : Char) : Bool := !(c == '\n') && !(c == '\r')

/-- `\s*(.+)` applied at the start of `t`: greedily skip whitespace, then
capture a maximal non-empty run of `.`-matchable characters, backtracking
over the whitespace when the remainder cannot start the capture. -/
def wsDotPlus : List Char → Option (List Char)
  | [] => none
  | c :: cs =>
    if c.isWhitespace then
      match wsDotPlus cs with
      | some r => some r
      | none => if dotChar c then some ((c :: cs).takeWhile dotChar) else none
    else
      if dotChar c then some ((c :: cs).takeWhile dotChar) else none

/-- `/\*\*FR-(\d+)\*\*:\s*(.+)/` anchored at the start of the list:
on success returns (digit capture, description capture). -/
def frMatchAt (cs : List Char) : Option (List Char × List Char) :=
  if leadsWith "**FR-".data cs then
    if ((cs.drop 5).takeWhile Char.isDigit).isEmpty then none
    else if leadsWith "**:".data ((cs.drop 5).dropWhile Char.isDigit) then
      (wsDotPlus (((cs.drop 5).dropWhile Char.isDigit).drop 3)).map
        (fun d => ((cs.drop 5).takeWhile Char.isDigit, d))
    else none
  else none

/-- `line.match(/\*\*FR-(\d+)\*\*:\s*(.+)/)`: leftmost match anywhere. -/
def frMatchL : List Char → Option (List Char × List Char)
  | [] => none
  | c :: cs =>
    match frMatchAt (c :: cs) with
    | some r => some r
    | none => frMatchL cs

/-- `/\*\*ID\*\*:\s*TC-(\d+)/` anchored at the start of the list. -/
def tcMatchAt (cs : List Char) : Option (List Char) :=
  if leadsWith "**ID**:".data cs then
    if leadsWith "TC-".data ((cs.drop 7).dropWhile Char.isWhitespace) then
      if (((((cs.drop 7).dropWhile Char.isWhitespace)).drop 3).takeWhile Char.isDigit).isEmpty
      then none
      else some (((((cs.drop 7).dropWhile Char.isWhitespace)).drop 3).takeWhile Char.isDigit)
    else none
  else none

/-- `line.match(/\*\*ID\*\*:\s*TC-(\d+)/)`: leftmost match anywhere. -/
def tcMatchL : List Char → Option (List Char)
  | [] => none
  | c :: cs =>
    match tcMatchAt (c :: cs) with
    | some r => some r
    | none => tcMatchL cs

/-- `line.split(':')[1].trim().toLowerCase().split('/')[0]` — the priority
text extracted from a `**Priority**:` line (the caller guarantees the line
contains a colon, so index 1 exists). -/
def priorityOf (line : List Char) : List Char :=
  (splitOnCh '/' (lowerL (trimL ((splitOnCh ':' line).getD 1 [])))).getD 0 []

/-- `line.split(':').slice(1).join(':')` — everything after the first colon. -/
def afterColon (line : List Char) : List Char :=
  joinCh ':' ((splitOnCh ':' line).drop 1)

/-- `line.substring(3).trim().toLowerCase()` — the section text of a `## ` line. -/
def sectionOf (line : List Char) : List Char := lowerL (trimL (line.drop 3))

/-- `line.startsWith('## ')`. -/
def startsHdr (line : List Char) : Bool := leadsWith ['#', '#', ' '] line

/-- A functional requirement as built by the Markdown scanner: all four
fields are always present on the JS object literal. -/
structure MReq where
  id : String
  description : String
  priority : String
  status : String
deriving DecidableEq, Repr

/-- A test case as built by the Markdown scanner. -/
structure MTc where
  id : String
  description : String
  steps : List String
  expected_result : String
deriving DecidableEq, Repr

/-- Which object `currentItem` aliases: nothing, the last element of
`functional`, or the last element of `test_cases`.  (In JS `currentItem`
is a reference to the most recently pushed item, reset to `null` at each
`## ` header; field writes through it mutate that array element.) -/
inductive CurTag
  | noItem
  | fr
  | tc
deriving DecidableEq, Repr

/-- Scanner state: the two output arrays plus `currentSection`/`currentItem`. -/
structure MDState where
  functional : List MReq
  test_cases : List MTc
  currentSection : List Char
  cur : CurTag
deriving DecidableEq, Repr

/-- Replace the last element of a list by `f` of it (models mutating the
array element that `currentItem` aliases). -/
def modifyLast {α : Type} (f : α → α) : List α → List α
  | [] => []
  | [x] => [f x]
  | x :: y :: xs => x :: modifyLast f (y :: xs)

def frSecPat : List Char := "functional requirement".data
def tcSecPat : List Char := "test case".data
def prioMark : List Char := "**Priority**:".data
def descMark : List Char := "**Description**:".data
def expMark : List Char := "**Expected Result**:".data

/-- Section detection: `if (line.startsWith('## ')) { currentSection = ...;
currentItem = null; }`. -/
def stepHdr (line : List Char) (st : MDState) : MDState :=
  if startsHdr line then
    { st with currentSection := sectionOf line, cur := CurTag.noItem }
  else st

/-- The `if (currentSection.includes('functional requirement'))` block.
The JS write `currentItem.priority = ...` when `currentItem` is a test
case adds a dynamic property no code ever reads, so it is dropped. -/
def stepFR (line : List Char) (st : MDState) : MDState :=
  if containsL st.currentSection frSecPat then
    let st :=
      match frMatchL line with
      | some (ds, desc) =>
        { st with
            functional := st.functional ++
              [⟨String.mk ('F' :: 'R' :: '-' :: ds), String.mk desc, "medium", "planned"⟩],
            cur := CurTag.fr }
      | none => st
    if st.cur != CurTag.noItem && containsL line prioMark then
      match st.cur with
      | CurTag.fr =>
        { st with functional :=
            modifyLast (fun r => { r with priority := String.mk (priorityOf line) }) st.functional }
      | _ => st
    else st
  else st

/-- The `if (currentSection.includes('test case'))` block.  The JS write
`currentItem.expected_result = ...` when `currentItem` is a requirement
adds a dynamic property no code ever reads, so it is dropped;
`currentItem.description = ...` on a requirement mutates its real
`description` field and is modelled. -/
def stepTC (line : List Char) (st : MDState) : MDState :=
  if containsL st.currentSection tcSecPat then
    let st :=
      match tcMatchL line with
      | some ds =>
        { st with
            test_cases := st.test_cases ++ [⟨String.mk ('T' :: 'C' :: '-' :: ds), "", [], ""⟩],
            cur := CurTag.tc }
      | none => st
    if st.cur != CurTag.noItem then
      let st :=
        if containsL line descMark then
          match st.cur with
          | CurTag.fr =>
            { st with functional :=
                modifyLast (fun r => { r with description := String.mk (trimL (afterColon line)) }) st.functional }
          | CurTag.tc =>
            { st with test_cases :=
                modifyLast (fun t => { t with description := String.mk (trimL (afterColon line)) }) st.test_cases }
          | CurTag.noItem => st
        else st
      if containsL line expMark then
        match st.cur with
        | CurTag.tc =>
          { st with test_cases :=
              modifyLast (fun t => { t with expected_result := String.mk (trimL (afterColon line)) }) st.test_cases }
        | _ => st
      else st
    else st
  else st

/-- One iteration of the scanner loop over a line, in source order:
section detection, the functional-requirement block, the test-case block. -/
def stepLine (st : MDState) (line : List Char) : MDState :=
  stepTC line (stepFR line (stepHdr line st))

/-- Initial scanner state. -/
def mdInit : MDState := ⟨[], [], [], CurTag.noItem⟩

/-- Run the scanner over every line of the content. -/
def runMD (content : String) : MDState :=
  (splitLines content.data).foldl stepLine mdInit

/-- Embed a scanner requirement into the optional-field model
(every field of the JS object literal is present). -/
def reqOfM (r : MReq) : Requirement :=
  ⟨some r.id, some r.description, some r.priority, some r.status⟩

/-- Embed a scanner test case into the optional-field model; the JS object
literal has no `preconditions` key. -/
def tcOfM (t : MTc) : TestCase :=
  ⟨some t.id, some t.description, none, some t.steps, some t.expected_result⟩

/-- `SpecParser.parseMarkdown`. -/
def parseMarkdown (content : String) : Spec :=
  let st := runMD content
  { name := some ""
    description := some ""
    requirements := some ⟨some (st.functional.map reqOfM), some []⟩
    user_stories := some []
    test_cases := some (st.test_cases.map tcOfM) }

/-! ### Validator (`SpecValidator`) -/

/-- The mutable result object: `{ valid: true, errors: [], warnings: [] }`. -/
structure VResult where
  valid : Bool
  errors : List String
  warnings : List String
deriving DecidableEq, Repr

/-- `result.errors.push(e); result.valid = false` — every `errors.push` in
the validator is paired with `result.valid = false`. -/
def pushE (r : VResult) (e : String) : VResult :=
  { r with errors := r.errors ++ [e], valid := false }

/-- `result.warnings.push(w)`. -/
def pushW (r : VResult) (w : String) : VResult :=
  { r with warnings := r.warnings ++ [w] }

/-- The `allRequirements.forEach` loop of `validateYAML`: `seen` is the
`ids` Set (as the list of ids added so far, in insertion order). -/
def checkReqs : List Requirement → List String → VResult → VResult
  | [], _, r => r
  | q :: qs, seen, r =>
    if !truthyS q.id then
      checkReqs qs seen (pushE r "Requirement missing ID")
    else if seen.contains (q.id.getD "") then
      checkReqs qs seen (pushE r ("Duplicate requirement ID: " ++ q.id.getD ""))
    else
      checkReqs qs (seen ++ [q.id.getD ""]) r

/-- The `spec.test_cases.forEach((tc, index) => ...)` loop; `i` is the index. -/
def checkTCs : List TestCase → Nat → VResult → VResult
  | [], _, r => r
  | tc :: rest, i, r =>
    let idOrIdx := if truthyS tc.id then tc.id.getD "" else toString i
    let r := if !truthyS tc.id then pushE r ("Test case at index " ++ toString i ++ " missing ID") else r
    let r := if !truthyS tc.description then pushW r ("Test case " ++ idOrIdx ++ " missing description") else r
    let r := if !truthyS tc.expected_result then pushW r ("Test case " ++ idOrIdx ++ " missing expected result") else r
    checkTCs rest (i + 1) r

/-- Body of the `try` block of `validateYAML`, given a decoded document. -/
def validateYAMLdoc (spec : Spec) (r : VResult) : VResult :=
  let r := if !truthyS spec.name then pushE r "Missing required field: name" else r
  let r := if !truthyS spec.description then pushW r "Missing description field" else r
  let r :=
    match spec.requirements with
    | none => pushW r "No requirements defined"
    | some reqs =>
      match reqs.functional with
      | none => pushW r "No functional requirements defined"
      | some l => if l.isEmpty then pushW r "No functional requirements defined" else r
  let r :=
    match spec.requirements with
    | none => r
    | some reqs => checkReqs (reqs.functional.getD [] ++ reqs.non_functional.getD []) [] r
  match spec.test_cases with
  | none => pushW r "No test cases defined"
  | some l => checkTCs l 0 r

/-- The message of the `TypeError` V8 raises when the try block reads
`spec.name` off the `null` that `YAML.parse` returns for an empty
document; the catch-all turns it into a validation error. -/
def nullNameMsg : String := "Cannot read properties of null (reading \x27name\x27)"

/-- `SpecValidator.validateYAML`: decode (abstract), then the try block;
any throw — decoder failure, or the `TypeError` on a `null` document —
lands in the catch, which appends `Invalid YAML: <message>`. -/
def validateYAML (dec : Except String (Option Spec)) (r : VResult) : VResult :=
  match dec with
  | Except.error m => pushE r ("Invalid YAML: " ++ m)
  | Except.ok none => pushE r ("Invalid YAML: " ++ nullNameMsg)
  | Except.ok (some spec) => validateYAMLdoc spec r

/-- The validator's functional-requirement marker scan
`/\*\*FR-\d+\*\*/` anchored at the start. -/
def frMarkAt : List Char → Bool
  | '*' :: '*' :: 'F' :: 'R' :: '-' :: rest =>
    !(rest.takeWhile Char.isDigit).isEmpty &&
      (match rest.dropWhile Char.isDigit with
       | '*' :: '*' :: _ => true
       | _ => false)
  | _ => false

/-- `content.match(/\*\*FR-\d+\*\*/)` as a Boolean: a match exists. -/
def hasFrMark : List Char → Bool
  | [] => false
  | c :: cs => frMarkAt (c :: cs) || hasFrMark cs

/-- `content.match(/\*\*ID\*\*:\s*TC-\d+/)` as a Boolean: a match exists. -/
def hasTcMark : List Char → Bool
  | [] => false
  | c :: cs => (tcMatchAt (c :: cs)).isSome || hasTcMark cs

/-- `SpecValidator.validateMarkdown`: advisory checks only (never touches
`valid`).  JS `content.length` counts UTF-16 code units; the embedding
counts characters, which agrees on the ASCII inputs the project uses. -/
def validateMarkdown (content : String) (r : VResult) : VResult :=
  let missing := (["## Overview", "## Requirements", "## Test Cases"]).filter
    (fun s => !hasSub content s)
  let r := missing.foldl (fun r s => pushW r ("Missing recommended section: " ++ s)) r
  let r := if content.data.length < 100 then pushW r "Specification seems incomplete (very short)" else r
  let r := if !hasFrMark content.data then pushW r "No functional requirements found" else r
  let r := if !hasTcMark content.data then pushW r "No test cases found" else r
  r

/-- `SpecValidator.validate`, parameterised by the abstract YAML decoder. -/
def validate (dec : String → Except String (Option Spec)) (content filename : String) : VResult :=
  let result : VResult := ⟨true, [], []⟩
  let ext := extOf filename
  if ext == "yaml" || ext == "yml" then validateYAML (dec content) result
  else if ext == "md" then validateMarkdown content result
  else pushE result ("Unsupported file format: " ++ ext)

/-! ### Parser (`SpecParser`) -/

/-- The two failure kinds of `parse`: the spec's FormatError
(`Unsupported file format: ...`) and SyntaxError (`Failed to parse YAML:
...`, wrapping the decoder's message). -/
inductive ParseErr
  | formatErr (msg : String)
  | syntaxErr (msg : String)
deriving DecidableEq, Repr

/-- `SpecParser.parseYAML`: decode, rethrowing a decoder failure as a
SyntaxError that carries the underlying message.  A successful decode is
returned unchanged (no field defaulting of any kind happens here). -/
def parseYAML (dec : String → Except String (Option Spec)) (content : String) :
    Except ParseErr (Option Spec) :=
  match dec content with
  | Except.ok v => Except.ok v
  | Except.error m => Except.error (ParseErr.syntaxErr ("Failed to parse YAML: " ++ m))

/-- `SpecParser.parse`: dispatch on the lower-cased extension of the hint. -/
def parse (dec : String → Except String (Option Spec)) (content filename : String) :
    Except ParseErr (Option Spec) :=
  let ext := extOf filename
  if ext == "yaml" || ext == "yml" then parseYAML dec content
  else if ext == "md" then Except.ok (some (parseMarkdown content))
  else Except.error (ParseErr.formatErr ("Unsupported file format: " ++ ext))

/-! ### Generator (`TestGenerator.generate`)

`generate` builds its output by successive `output +=`; the embedding
names each appended piece and concatenates them in the same order.
`jsShow` is JS template interpolation (an absent field prints as the
string `undefined`); `orJS` is `x || 'fallback'`. -/

/-- Concatenation of the strings a `forEach` loop appends, in order. -/
def strConcat : List String → String
  | [] => ""
  | s :: rest => s ++ strConcat rest

/-- JS template interpolation of a possibly-absent string field. -/
def jsShow : Option String → String
  | none => "undefined"
  | some s => s

/-- JS `x || d` for a possibly-absent string field. -/
def orJS (x : Option String) (d : String) : String :=
  if truthyS x then x.getD "" else d

def genHeader : String :=
  "// Auto-generated tests from specification\n// DO NOT EDIT: This file was generated from the specification\n\n"

/-- `describe('${spec.name || 'Application'}', () => {\n`. -/
def genOpen (spec : Spec) : String :=
  "describe(\x27" ++ orJS spec.name "Application" ++ "\x27, () => \x7b\n"

/-- One functional-requirement test entry. -/
def frEntry (req : Requirement) : String :=
  "    test(\x27" ++ jsShow req.id ++ ": " ++ jsShow req.description ++ "\x27, () => \x7b\n" ++
  "      // TODO: Implement test for " ++ jsShow req.id ++ "\n" ++
  "      expect(true).toBe(true);\n" ++
  "    \x7d);\n\n"

/-- The Functional Requirements group: emitted whenever
`spec.requirements && spec.requirements.functional` is truthy — a present
array is truthy even when empty. -/
def frGroup (spec : Spec) : String :=
  match spec.requirements with
  | none => ""
  | some reqs =>
    match reqs.functional with
    | none => ""
    | some l =>
      "  describe(\x27Functional Requirements\x27, () => \x7b\n" ++
      strConcat (l.map frEntry) ++ "  \x7d);\n\n"

/-- One user-story test entry (the inner `if` on `acceptance_criteria`
guards a loop that appends nothing when the list is empty or absent, so
it is folded into the join). -/
def usEntry (story : UserStory) : String :=
  "    test(\x27" ++ orJS story.id "User Story" ++ ": As a " ++ jsShow story.as_a ++
  ", I want " ++ jsShow story.i_want ++ "\x27, () => \x7b\n" ++
  strConcat ((story.acceptance_criteria.getD []).map (fun c => "      // Acceptance: " ++ c ++ "\n")) ++
  "      // TODO: Implement test for this user story\n" ++
  "      expect(true).toBe(true);\n" ++
  "    \x7d);\n\n"

/-- The User Stories group: emitted only when `spec.user_stories` is
present and non-empty (`spec.user_stories.length > 0`). -/
def usGroup (spec : Spec) : String :=
  match spec.user_stories with
  | none => ""
  | some [] => ""
  | some l =>
    "  describe(\x27User Stories\x27, () => \x7b\n" ++
    strConcat (l.map usEntry) ++ "  \x7d);\n\n"

/-- The numbered `// ${index + 1}. ${step}` comment lines. -/
def stepLinesOut : List String → Nat → String
  | [], _ => ""
  | s :: rest, i => "      // " ++ toString (i + 1) ++ ". " ++ s ++ "\n" ++ stepLinesOut rest (i + 1)

/-- One test-case entry. -/
def tcEntry (tc : TestCase) : String :=
  "    test(\x27" ++ jsShow tc.id ++ ": " ++ jsShow tc.description ++ "\x27, () => \x7b\n" ++
  (if truthyS tc.preconditions then "      // Preconditions: " ++ tc.preconditions.getD "" ++ "\n" else "") ++
  (match tc.steps with
   | some (s :: rest) => "      // Steps:\n" ++ stepLinesOut (s :: rest) 0
   | _ => "") ++
  (if truthyS tc.expected_result then "      // Expected: " ++ tc.expected_result.getD "" ++ "\n" else "") ++
  "      // TODO: Implement test steps\n" ++
  "      expect(true).toBe(true);\n" ++
  "    \x7d);\n\n"

/-- The Test Cases group: emitted only when `spec.test_cases` is present
and non-empty. -/
def tcGroup (spec : Spec) : String :=
  match spec.test_cases with
  | none => ""
  | some [] => ""
  | some l =>
    "  describe(\x27Test Cases\x27, () => \x7b\n" ++
    strConcat (l.map tcEntry) ++ "  \x7d);\n"

/-- `TestGenerator.generate`. -/
def generate (spec : Spec) : String :=
  genHeader ++ genOpen spec ++ frGroup spec ++ usGroup spec ++ tcGroup spec ++ "\x7d);\n"

/-! ### String and list helper lemmas -/

theorem strData_append (a b : String) : (a ++ b).data = a.data ++ b.data := by
  cases a; cases b; rfl

theorem strApp_assoc (a b c : String) : a ++ b ++ c = a ++ (b ++ c) := by
  cases a with
  | mk la =>
    cases b with
    | mk lb =>
      cases c with
      | mk lc => exact congrArg String.mk (List.append_assoc la lb lc)

theorem strNil_append (s : String) : "" ++ s = s := by
  cases s; rfl

/-- First character of a string, if any. -/
def firstCh (s : String) : Option Char := s.data.head?

theorem firstCh_append {a : String} (b : String) {c : Char} (h : firstCh a = some c) :
    firstCh (a ++ b) = some c := by
  cases a with
  | mk d =>
    cases d with
    | nil => simp [firstCh] at h
    | cons hd tl =>
      cases b with
      | mk e =>
        show (String.mk (hd :: tl) ++ String.mk e).data.head? = some c
        rw [strData_append]
        simpa [firstCh] using h

theorem ne_of_firstCh {a b : String} (h : firstCh a ≠ firstCh b) : a ≠ b :=
  fun e => h (by rw [e])

theorem strApp_left_cancel {a x y : String} (h : a ++ x = a ++ y) : x = y := by
  cases a with
  | mk la =>
    cases x with
    | mk lx =>
      cases y with
      | mk ly =>
        have hd : la ++ lx = la ++ ly := congrArg String.data h
        exact congrArg String.mk (List.append_cancel_left hd)

/-- Occurrences of `x` in a list of strings. -/
def countStr : List String → String → Nat
  | [], _ => 0
  | y :: ys, x => (if y = x then 1 else 0) + countStr ys x

theorem countStr_append (a b : List String) (x : String) :
    countStr (a ++ b) x = countStr a x + countStr b x := by
  induction a with
  | nil => simp [countStr]
  | cons y ys ih => simp [countStr, ih]; omega

theorem countStr_pos_ne_nil {l : List String} {x : String} (h : 0 < countStr l x) :
    l ≠ [] := by
  intro e; subst e; simp [countStr] at h

/-! ### Characterizing the validator's accumulation

Each checking pass only ever appends to `errors`/`warnings` and clears
`valid` when it appends an error; the lemmas below compute the appended
lists explicitly. -/

/-- The errors the `allRequirements.forEach` loop appends. -/
def idErrList : List Requirement → List String → List String
  | [], _ => []
  | q :: qs, seen =>
    if !truthyS q.id then "Requirement missing ID" :: idErrList qs seen
    else if seen.contains (q.id.getD "") then
      ("Duplicate requirement ID: " ++ q.id.getD "") :: idErrList qs seen
    else idErrList qs (seen ++ [q.id.getD ""])

/-- The errors the test-case loop appends, starting at index `i`. -/
def tcErrList : List TestCase → Nat → List String
  | [], _ => []
  | tc :: rest, i =>
    (if !truthyS tc.id then ["Test case at index " ++ toString i ++ " missing ID"] else []) ++
      tcErrList rest (i + 1)

/-- The warnings the test-case loop appends, starting at index `i`. -/
def tcWarnList : List TestCase → Nat → List String
  | [], _ => []
  | tc :: rest, i =>
    (if !truthyS tc.description then
       ["Test case " ++ (if truthyS tc.id then tc.id.getD "" else toString i) ++ " missing description"]
     else []) ++
    (if !truthyS tc.expected_result then
       ["Test case " ++ (if truthyS tc.id then tc.id.getD "" else toString i) ++ " missing expected result"]
     else []) ++
      tcWarnList rest (i + 1)

/-- All errors `validateYAMLdoc` appends, in order. -/
def yamlErrs (s : Spec) : List String :=
  (if !truthyS s.name then ["Missing required field: name"] else []) ++
  (match s.requirements with
   | none => []
   | some reqs => idErrList (reqs.functional.getD [] ++ reqs.non_functional.getD []) []) ++
  (match s.test_cases with
   | none => []
   | some l => tcErrList l 0)

/-- All warnings `validateYAMLdoc` appends, in order. -/
def yamlWarns (s : Spec) : List String :=
  (if !truthyS s.description then ["Missing description field"] else []) ++
  (match s.requirements with
   | none => ["No requirements defined"]
   | some reqs =>
     match reqs.functional with
     | none => ["No functional requirements defined"]
     | some l => if l.isEmpty then ["No functional requirements defined"] else []) ++
  (match s.test_cases with
   | none => ["No test cases defined"]
   | some l => tcWarnList l 0)

theorem isEmpty_append {α : Type} (a b : List α) :
    (a ++ b).isEmpty = (a.isEmpty && b.isEmpty) := by
  cases a <;> rfl

theorem checkReqs_eq (qs : List Requirement) (seen : List String) (r : VResult) :
    checkReqs qs seen r =
      ⟨r.valid && (idErrList qs seen).isEmpty, r.errors ++ idErrList qs seen, r.warnings⟩ := by
  induction qs generalizing seen r with
  | nil => simp [checkReqs, idErrList]
  | cons q qs ih =>
    by_cases h1 : truthyS q.id
    · by_cases h2 : q.id.getD "" ∈ seen
      · simp [checkReqs, idErrList, h1, h2, ih, pushE, List.append_assoc]
      · simp [checkReqs, idErrList, h1, h2, ih]
    · simp [checkReqs, idErrList, h1, ih, pushE, List.append_assoc]

theorem checkTCs_eq (l : List TestCase) (i : Nat) (r : VResult) :
    checkTCs l i r =
      ⟨r.valid && (tcErrList l i).isEmpty, r.errors ++ tcErrList l i,
        r.warnings ++ tcWarnList l i⟩ := by
  induction l generalizing i r with
  | nil => simp [checkTCs, tcErrList, tcWarnList]
  | cons tc rest ih =>
    by_cases h1 : truthyS tc.id <;> by_cases h2 : truthyS tc.description <;>
      by_cases h3 : truthyS tc.expected_result <;>
      simp [checkTCs, tcErrList, tcWarnList, h1, h2, h3, ih, pushE, pushW, List.append_assoc]

theorem validateYAMLdoc_eq (s : Spec) (r : VResult) :
    validateYAMLdoc s r =
      ⟨r.valid && (yamlErrs s).isEmpty, r.errors ++ yamlErrs s, r.warnings ++ yamlWarns s⟩ := by
  obtain ⟨nm, ds, rq, us, tcs⟩ := s
  rcases rq with _ | ⟨f, nf⟩
  · rcases tcs with _ | tl <;> by_cases h1 : truthyS nm <;> by_cases h2 : truthyS ds <;>
      simp [validateYAMLdoc, yamlErrs, yamlWarns, h1, h2, pushE, pushW, idErrList,
        checkTCs_eq, List.append_assoc, isEmpty_append, Bool.and_assoc]
  · rcases f with _ | l
    · rcases tcs with _ | tl <;> by_cases h1 : truthyS nm <;> by_cases h2 : truthyS ds <;>
        simp [validateYAMLdoc, yamlErrs, yamlWarns, h1, h2, pushE, pushW,
          checkReqs_eq, checkTCs_eq, List.append_assoc, isEmpty_append, Bool.and_assoc]
    · by_cases hl : l = []
      · subst hl
        rcases tcs with _ | tl <;> by_cases h1 : truthyS nm <;> by_cases h2 : truthyS ds <;>
          simp [validateYAMLdoc, yamlErrs, yamlWarns, h1, h2, pushE, pushW,
            checkReqs_eq, checkTCs_eq, List.append_assoc, isEmpty_append, Bool.and_assoc]
      · rcases tcs with _ | tl <;> by_cases h1 : truthyS nm <;> by_cases h2 : truthyS ds <;>
          simp [validateYAMLdoc, yamlErrs, yamlWarns, h1, h2, hl, pushE, pushW,
            checkReqs_eq, checkTCs_eq, List.append_assoc, isEmpty_append, Bool.and_assoc]

theorem validate_yaml_dispatch (dec : String → Except String (Option Spec))
    (content fn : String) (h : extOf fn = "yaml" ∨ extOf fn = "yml") :
    validate dec content fn = validateYAML (dec content) ⟨true, [], []⟩ := by
  rcases h with h | h <;> simp [validate, h]

theorem parse_yaml_ok (dec : String → Except String (Option Spec))
    (content fn : String) (v : Option Spec)
    (h : extOf fn = "yaml" ∨ extOf fn = "yml") (hdec : dec content = Except.ok v) :
    parse dec content fn = Except.ok v := by
  rcases h with h | h <;> simp [parse, parseYAML, h, hdec]

/-! ### Claim theorems -/

/-- C5: `validate` always returns a ValidationResult and never throws: a
format hint resolving to neither yaml/yml nor md yields `valid = false`
with the single error `Unsupported file format: <ext>` (in particular for
`validate("name: test", "txt")`), and a YAML decoder failure is caught and
converted into an `Invalid YAML: <message>` error entry instead of
propagating. -/
theorem C5_validate_never_throws :
    (∀ (dec : String → Except String (Option Spec)) (content fn : String),
      extOf fn ≠ "yaml" → extOf fn ≠ "yml" → extOf fn ≠ "md" →
      validate dec content fn = ⟨false, ["Unsupported file format: " ++ extOf fn], []⟩) ∧
    (∀ dec : String → Except String (Option Spec),
      validate dec "name: test" "txt" = ⟨false, ["Unsupported file format: txt"], []⟩) ∧
    (∀ (dec : String → Except String (Option Spec)) (content fn m : String),
      (extOf fn = "yaml" ∨ extOf fn = "yml") → dec content = Except.error m →
      validate dec content fn = ⟨false, ["Invalid YAML: " ++ m], []⟩) := by
  refine ⟨fun dec content fn h1 h2 h3 => ?_, fun dec => ?_, fun dec content fn m h hdec => ?_⟩
  · simp [validate, pushE, h1, h2, h3]
  · rfl
  · rw [validate_yaml_dispatch dec content fn h]
    simp [validateYAML, hdec, pushE]

/-- Witness for C5 at concrete inputs: the unsupported-format branch and
the caught-decoder-failure branch. -/
theorem C5_witness :
    validate (fun _ => Except.error "boom") "a: b" "spec.yaml" =
      ⟨false, ["Invalid YAML: boom"], []⟩ ∧
    validate (fun _ => Except.ok none) "name: test" "txt" =
      ⟨false, ["Unsupported file format: txt"], []⟩ :=
  ⟨C5_validate_never_throws.2.2 _ "a: b" "spec.yaml" "boom" (Or.inl rfl) rfl,
   C5_validate_never_throws.2.1 _⟩

/-- C10: a successful decode producing `null` (e.g. the empty document)
does not propagate the `TypeError` raised on the first field read: the
catch-all converts it, so the result is `valid = false` with a single
error beginning `Invalid YAML:`. -/
theorem C10_null_document :
    ∀ (dec : String → Except String (Option Spec)) (content fn : String),
      (extOf fn = "yaml" ∨ extOf fn = "yml") → dec content = Except.ok none →
      validate dec content fn = ⟨false, ["Invalid YAML: " ++ nullNameMsg], []⟩ ∧
      leadsWith "Invalid YAML:".data ("Invalid YAML: " ++ nullNameMsg).data = true := by
  intro dec content fn h hdec
  constructor
  · rw [validate_yaml_dispatch dec content fn h]
    simp [validateYAML, hdec, pushE]
  · decide

/-- Witness for C10: the decoder modelling `YAML.parse ''` (which returns
`null` in the `yaml` package). -/
theorem C10_witness :
    validate (fun _ => Except.ok none) "" "empty.yaml" =
      ⟨false, ["Invalid YAML: " ++ nullNameMsg], []⟩ :=
  (C10_null_document (fun _ => Except.ok none) "" "empty.yaml" (Or.inl rfl) rfl).1

/-- C6: `parse` fails with a FormatError exactly when the hint resolves to
neither yaml/yml nor md; it fails with a SyntaxError exactly when the
format is yaml/yml and the decoder fails, and then the error carries the
decoder's message; the md path never fails. -/
theorem C6_parse_failure_modes :
    ∀ (dec : String → Except String (Option Spec)) (content fn : String),
      ((∃ m, parse dec content fn = Except.error (ParseErr.formatErr m)) ↔
        (extOf fn ≠ "yaml" ∧ extOf fn ≠ "yml" ∧ extOf fn ≠ "md")) ∧
      ((∃ m, parse dec content fn = Except.error (ParseErr.syntaxErr m)) ↔
        ((extOf fn = "yaml" ∨ extOf fn = "yml") ∧ ∃ e, dec content = Except.error e)) ∧
      (∀ e, (extOf fn = "yaml" ∨ extOf fn = "yml") → dec content = Except.error e →
        parse dec content fn = Except.error (ParseErr.syntaxErr ("Failed to parse YAML: " ++ e))) ∧
      (extOf fn = "md" → parse dec content fn = Except.ok (some (parseMarkdown content))) := by
  intro dec content fn
  by_cases hy : extOf fn = "yaml"
  · cases hdec : dec content with
    | ok v => simp [parse, parseYAML, hy, hdec]
    | error e => simp [parse, parseYAML, hy, hdec]
  · by_cases hyml : extOf fn = "yml"
    · cases hdec : dec content with
      | ok v => simp [parse, parseYAML, hy, hyml, hdec]
      | error e => simp [parse, parseYAML, hy, hyml, hdec]
    · by_cases hmd : extOf fn = "md"
      · simp [parse, hy, hyml, hmd]
      · simp [parse, hy, hyml, hmd]

/-- Witness for C6 at concrete inputs: a failing decoder on the yaml path
and the md path. -/
theorem C6_witness :
    parse (fun _ => Except.error "bad") "x" "a.yml" =
      Except.error (ParseErr.syntaxErr ("Failed to parse YAML: " ++ "bad")) ∧
    parse (fun _ => Except.error "bad") "x" "a.md" =
      Except.ok (some (parseMarkdown "x")) :=
  ⟨((C6_parse_failure_modes (fun _ => Except.error "bad") "x" "a.yml").2.2.1) "bad"
      (Or.inr rfl) rfl,
   ((C6_parse_failure_modes (fun _ => Except.error "bad") "x" "a.md").2.2.2) rfl⟩

theorem strNe_empty_left (a b : String) (h : a.data ≠ []) : a ++ b ≠ "" := by
  intro e
  apply h
  have hd := congrArg String.data e
  rw [strData_append] at hd
  exact (List.append_eq_nil.mp hd).1

/-- A spec whose `requirements.functional` is present but equal to the
empty array (and has nothing else). -/
def s1 : Spec :=
  { name := some "app", description := none,
    requirements := some ⟨some [], none⟩,
    user_stories := none, test_cases := none }

/-- C1 counterexample: with `requirements.functional` present but empty,
the generated output still contains the `Functional Requirements`
describe group — a present array is truthy in JS even when empty, and the
source only tests presence, not length, for this group. -/
theorem C1_counterexample :
    s1.requirements = some ⟨some [], none⟩ ∧
    hasSub (generate s1) "describe(\x27Functional Requirements\x27" = true := by
  exact ⟨rfl, by decide⟩

/-- C1 as amended: the User Stories and Test Cases groups are emitted iff
their collections are present and non-empty, but the Functional
Requirements group is emitted iff `spec.requirements` and
`spec.requirements.functional` are both present, even when the functional
array is empty. -/
theorem C1_group_emission :
    ∀ spec : Spec,
      (generate spec =
        genHeader ++ genOpen spec ++ frGroup spec ++ usGroup spec ++ tcGroup spec ++ "\x7d);\n") ∧
      (frGroup spec ≠ "" ↔ ∃ reqs l, spec.requirements = some reqs ∧ reqs.functional = some l) ∧
      (usGroup spec ≠ "" ↔ ∃ l, spec.user_stories = some l ∧ l ≠ []) ∧
      (tcGroup spec ≠ "" ↔ ∃ l, spec.test_cases = some l ∧ l ≠ []) := by
  intro spec
  refine ⟨rfl, ?_, ?_, ?_⟩
  · cases hr : spec.requirements with
    | none => simp [frGroup, hr]
    | some reqs =>
      cases hf : reqs.functional with
      | none => simp [frGroup, hr, hf]
      | some l =>
        refine ⟨fun _ => ⟨reqs, l, rfl, hf⟩, fun _ => ?_⟩
        have he : frGroup spec =
            "  describe(\x27Functional Requirements\x27, () => \x7b\n" ++
              (strConcat (l.map frEntry) ++ "  \x7d);\n\n") := by
          simp [frGroup, hr, hf, strApp_assoc]
        rw [he]
        exact strNe_empty_left _ _ (by decide)
  · cases hu : spec.user_stories with
    | none => simp [usGroup, hu]
    | some l =>
      cases l with
      | nil => simp [usGroup, hu]
      | cons x xs =>
        refine ⟨fun _ => ⟨x :: xs, rfl, by simp⟩, fun _ => ?_⟩
        have he : usGroup spec =
            "  describe(\x27User Stories\x27, () => \x7b\n" ++
              (strConcat ((x :: xs).map usEntry) ++ "  \x7d);\n\n") := by
          simp [usGroup, hu, strApp_assoc]
        rw [he]
        exact strNe_empty_left _ _ (by decide)
  · cases ht : spec.test_cases with
    | none => simp [tcGroup, ht]
    | some l =>
      cases l with
      | nil => simp [tcGroup, ht]
      | cons x xs =>
        refine ⟨fun _ => ⟨x :: xs, rfl, by simp⟩, fun _ => ?_⟩
        have he : tcGroup spec =
            "  describe(\x27Test Cases\x27, () => \x7b\n" ++
              (strConcat ((x :: xs).map tcEntry) ++ "  \x7d);\n") := by
          simp [tcGroup, ht, strApp_assoc]
        rw [he]
        exact strNe_empty_left _ _ (by decide)

/-- Witness for C1 at the concrete spec `s1`. -/
theorem C1_group_emission_witness : frGroup s1 ≠ "" :=
  (C1_group_emission s1).2.1.mpr ⟨⟨some [], none⟩, [], rfl, rfl⟩

/-- The decoded document of a YAML spec whose single functional entry has
no `priority` key. -/
def doc2 : Spec :=
  { name := some "t", description := none,
    requirements := some ⟨some [⟨some "FR-1", some "d", none, none⟩], none⟩,
    user_stories := none, test_cases := none }

/-- Models `YAML.parse` on the document
`name: t\nrequirements:\n  functional:\n    - id: FR-1\n      description: d\n`,
whose single functional entry omits `priority`. -/
def dec2 : String → Except String (Option Spec) := fun _ => Except.ok (some doc2)

/-- C2 counterexample: the YAML path returns the decoded document as-is,
so an entry without a `priority` key parses with no priority at all, not
with `"medium"`. -/
theorem C2_counterexample :
    parse dec2 "name: t\nrequirements:\n  functional:\n    - id: FR-1\n      description: d\n"
        "spec.yaml" = Except.ok (some doc2) ∧
    ((doc2.requirements.getD ⟨none, none⟩).functional.getD []).map (fun q => q.priority) =
      [none] := by
  exact ⟨rfl, rfl⟩

/-- C2 as amended: only the Markdown parser supplies the `"medium"`
default (each scanned requirement is created with it); the YAML path
returns the decoded document unchanged and performs no defaulting. -/
theorem C2_priority_defaulting :
    (∀ (dec : String → Except String (Option Spec)) (content fn : String) (v : Option Spec),
      (extOf fn = "yaml" ∨ extOf fn = "yml") → dec content = Except.ok v →
      parse dec content fn = Except.ok v) ∧
    (((parseMarkdown "## Functional Requirements\n- **FR-001**: Add\n").requirements.getD
        ⟨none, none⟩).functional.getD []).map (fun q => q.priority) = [some "medium"] := by
  exact ⟨fun dec content fn v h hd => parse_yaml_ok dec content fn v h hd, by decide⟩

/-- Witness for C2 at the concrete decoder `dec2`. -/
theorem C2_priority_defaulting_witness :
    parse dec2 "x" "a.yaml" = Except.ok (some doc2) :=
  C2_priority_defaulting.1 dec2 "x" "a.yaml" (some doc2) (Or.inl rfl) rfl

/-! ### Requirement-id bookkeeping for C3/C4 -/

theorem truthyS_some {o : Option String} (h : truthyS o = true) :
    o = some (o.getD "") ∧ o.getD "" ≠ "" := by
  cases o with
  | none => simp [truthyS] at h
  | some s =>
    refine ⟨rfl, fun e => ?_⟩
    rw [Option.getD_some] at e
    subst e
    exact absurd h (by decide)

theorem contains_eq_memB {α : Type} [BEq α] [LawfulBEq α] (l : List α) (a : α) :
    l.contains a = decide (a ∈ l) :=
  List.elem_eq_mem a l

/-- No string occurs twice. -/
def nodupB : List String → Bool
  | [] => true
  | x :: xs => !xs.contains x && nodupB xs

/-- `functional` + `non_functional`, the domain of the ID checks. -/
def allReqs (s : Spec) : List Requirement :=
  match s.requirements with
  | none => []
  | some reqs => reqs.functional.getD [] ++ reqs.non_functional.getD []

/-- The test cases the validator loops over. -/
def allTCs (s : Spec) : List TestCase := s.test_cases.getD []

/-- Every entry has a truthy id and no id repeats. -/
def idsOk (l : List Requirement) : Bool :=
  l.all (fun q => truthyS q.id) && nodupB (l.map (fun q => q.id.getD ""))

/-- Every test case has a truthy id. -/
def tcIdsOk (l : List TestCase) : Bool := l.all (fun t => truthyS t.id)

theorem idErrList_nil :
    ∀ (qs : List Requirement) (seen : List String),
      (∀ q ∈ qs, truthyS q.id = true) →
      nodupB (qs.map (fun q => q.id.getD "")) = true →
      (∀ q ∈ qs, q.id.getD "" ∉ seen) →
      idErrList qs seen = [] := by
  intro qs
  induction qs with
  | nil => intro seen _ _ _; rfl
  | cons q qs ih =>
    intro seen h1 h2 h3
    have hq : truthyS q.id = true := h1 q (by simp)
    have hm : q.id.getD "" ∉ seen := h3 q (by simp)
    have h2' : nodupB (qs.map (fun q => q.id.getD "")) = true := by
      simp only [List.map_cons, nodupB, Bool.and_eq_true] at h2
      exact h2.2
    have hnotin : q.id.getD "" ∉ qs.map (fun q => q.id.getD "") := by
      simp only [List.map_cons, nodupB, Bool.and_eq_true, Bool.not_eq_true',
        contains_eq_memB, decide_eq_false_iff_not] at h2
      exact h2.1
    have hcf : seen.contains (q.id.getD "") = false := by
      rw [contains_eq_memB]; simpa using hm
    rw [idErrList]
    simp only [hq, hcf, Bool.not_true, Bool.false_eq_true, if_false]
    refine ih (seen ++ [q.id.getD ""]) (fun q' hq' => h1 q' (List.mem_cons_of_mem _ hq'))
      h2' (fun q' hq' => ?_)
    intro hc
    rcases List.mem_append.mp hc with hc | hc
    · exact h3 q' (List.mem_cons_of_mem _ hq') hc
    · rcases List.mem_singleton.mp hc with e
      exact hnotin (e ▸ List.mem_map_of_mem _ hq')

theorem tcErrList_nil :
    ∀ (l : List TestCase) (i : Nat), (∀ tc ∈ l, truthyS tc.id = true) → tcErrList l i = [] := by
  intro l
  induction l with
  | nil => intro i _; rfl
  | cons tc rest ih =>
    intro i h
    rw [tcErrList]
    simp [h tc (by simp), ih (i + 1) (fun t ht => h t (List.mem_cons_of_mem _ ht))]

theorem yamlErrs_nil (spec : Spec) (hname : truthyS spec.name = true)
    (hids : idsOk (allReqs spec) = true) (htc : tcIdsOk (allTCs spec) = true) :
    yamlErrs spec = [] := by
  have hall : ∀ q ∈ allReqs spec, truthyS q.id = true := by
    have := (Bool.and_eq_true _ _).mp hids |>.1
    intro q hq
    exact List.all_eq_true.mp this q hq
  have hnd : nodupB ((allReqs spec).map (fun q => q.id.getD "")) = true :=
    ((Bool.and_eq_true _ _).mp hids).2
  have htcall : ∀ t ∈ allTCs spec, truthyS t.id = true := fun t ht =>
    List.all_eq_true.mp htc t ht
  unfold yamlErrs
  rw [if_neg (by simp [hname])]
  have hreq :
      (match spec.requirements with
       | none => []
       | some reqs => idErrList (reqs.functional.getD [] ++ reqs.non_functional.getD []) []) =
        ([] : List String) := by
    cases hr : spec.requirements with
    | none => rfl
    | some reqs =>
      have ha : allReqs spec = reqs.functional.getD [] ++ reqs.non_functional.getD [] := by
        unfold allReqs; rw [hr]
      show idErrList (reqs.functional.getD [] ++ reqs.non_functional.getD []) [] = []
      rw [← ha]
      exact idErrList_nil _ [] hall hnd (by simp)
  have htcs :
      (match spec.test_cases with
       | none => []
       | some l => tcErrList l 0) = ([] : List String) := by
    cases ht : spec.test_cases with
    | none => rfl
    | some l =>
      have : allTCs spec = l := by unfold allTCs; rw [ht]; rfl
      exact tcErrList_nil l 0 (this ▸ htcall)
  rw [hreq, htcs]
  rfl

/-- A decoded document with a valid name and one well-formed functional
requirement, but a test case with no id. -/
def doc3 : Spec :=
  { name := some "t", description := none,
    requirements := some ⟨some [⟨some "FR-1", some "d", none, none⟩], none⟩,
    user_stories := none,
    test_cases := some [⟨none, none, none, none, none⟩] }

/-- Models `YAML.parse` on a document with `name: t`, one functional
requirement `FR-1`, and a `test_cases` entry without an `id` key. -/
def dec3 : String → Except String (Option Spec) := fun _ => Except.ok (some doc3)

/-- C3 counterexample: the rest of the document is *not* irrelevant — a
test case without an id makes `valid` false even though the name is
non-empty and all functional requirement ids are unique and non-empty. -/
theorem C3_counterexample :
    truthyS doc3.name = true ∧ idsOk (allReqs doc3) = true ∧
    (validate dec3 "c" "s.yaml").valid = false ∧
    "Test case at index 0 missing ID" ∈ (validate dec3 "c" "s.yaml").errors := by
  decide

/-- C3 as amended: a decoded YAML document with a truthy `name`, unique
truthy ids across `functional ++ non_functional`, and a truthy id on every
test case validates with `valid = true` and no errors. -/
theorem C3_valid_yaml :
    ∀ (dec : String → Except String (Option Spec)) (content fn : String) (spec : Spec),
      (extOf fn = "yaml" ∨ extOf fn = "yml") → dec content = Except.ok (some spec) →
      truthyS spec.name = true → idsOk (allReqs spec) = true → tcIdsOk (allTCs spec) = true →
      (validate dec content fn).valid = true ∧ (validate dec content fn).errors = [] := by
  intro dec content fn spec h hdec hname hids htc
  rw [validate_yaml_dispatch dec content fn h]
  show (validateYAML (dec content) ⟨true, [], []⟩).valid = true ∧
    (validateYAML (dec content) ⟨true, [], []⟩).errors = []
  rw [hdec]
  show (validateYAMLdoc spec ⟨true, [], []⟩).valid = true ∧
    (validateYAMLdoc spec ⟨true, [], []⟩).errors = []
  rw [validateYAMLdoc_eq]
  simp [yamlErrs_nil spec hname hids htc]

/-- Witness for C3 at a concrete well-formed document. -/
theorem C3_valid_yaml_witness :
    (validate (fun _ => Except.ok (some doc2)) "c" "ok.yaml").valid = true ∧
    (validate (fun _ => Except.ok (some doc2)) "c" "ok.yaml").errors = [] :=
  C3_valid_yaml (fun _ => Except.ok (some doc2)) "c" "ok.yaml" doc2 (Or.inl rfl) rfl
    (by decide) (by decide) (by decide)

/-! ### Counting duplicate-id and missing-id errors (C4) -/

/-- The duplicate-id error message for id `x`. -/
def dupMsg (x : String) : String := "Duplicate requirement ID: " ++ x

/-- Occurrences of the id `x` among requirement entries. -/
def cntId : List Requirement → String → Nat
  | [], _ => 0
  | q :: qs, x => (if q.id = some x then 1 else 0) + cntId qs x

/-- Entries whose id is missing or empty (falsy). -/
def cntNoId : List Requirement → Nat
  | [] => 0
  | q :: qs => (if truthyS q.id then 0 else 1) + cntNoId qs

theorem firstCh_dupMsg (x : String) : firstCh (dupMsg x) = some 'D' :=
  firstCh_append x rfl

theorem missing_ne_dupMsg (x : String) : "Requirement missing ID" ≠ dupMsg x :=
  ne_of_firstCh (by rw [firstCh_dupMsg]; decide)

theorem dupMsg_inj {x y : String} (h : dupMsg x = dupMsg y) : x = y :=
  strApp_left_cancel h

theorem firstCh_tcMissing (i : Nat) :
    firstCh ("Test case at index " ++ toString i ++ " missing ID") = some 'T' :=
  @firstCh_append _ " missing ID" 'T' (@firstCh_append _ (toString i) 'T' rfl)

theorem tcMissing_ne_dupMsg (i : Nat) (x : String) :
    "Test case at index " ++ toString i ++ " missing ID" ≠ dupMsg x :=
  ne_of_firstCh (by rw [firstCh_dupMsg, firstCh_tcMissing]; decide)

theorem tcMissing_ne_missing (i : Nat) :
    "Test case at index " ++ toString i ++ " missing ID" ≠ "Requirement missing ID" :=
  ne_of_firstCh (by rw [firstCh_tcMissing]; decide)

theorem truthyS_some_iff (s : String) : truthyS (some s) = true ↔ s ≠ "" := by
  constructor
  · intro h e
    subst e
    exact absurd h (by decide)
  · intro h
    show (!s.isEmpty) = true
    have he : s.isEmpty = false := by
      cases he : s.isEmpty
      · rfl
      · exact absurd ((String.isEmpty_iff s).mp he) h
    rw [he]
    rfl

theorem nameMsg_ne_dupMsg (x : String) : "Missing required field: name" ≠ dupMsg x :=
  ne_of_firstCh (by rw [firstCh_dupMsg]; decide)

theorem countStr_idErr_dup (x : String) (hx : x ≠ "") :
    ∀ (qs : List Requirement) (seen : List String),
      countStr (idErrList qs seen) (dupMsg x) =
        cntId qs x - (if x ∈ seen then 0 else 1) := by
  intro qs
  induction qs with
  | nil => intro seen; simp [idErrList, cntId, countStr]
  | cons q qs ih =>
    intro seen
    by_cases hq : truthyS q.id
    · obtain ⟨hqe, hne⟩ := truthyS_some hq
      by_cases hmem : q.id.getD "" ∈ seen
      · have hcf : seen.contains (q.id.getD "") = true := by
          rw [contains_eq_memB]; simpa using hmem
        rw [idErrList]
        simp only [hq, hcf, Bool.not_true, Bool.false_eq_true, if_false, if_true, countStr]
        by_cases hxy : q.id.getD "" = x
        · have hid : q.id = some x := by rw [hqe, hxy]
          have hd : dupMsg (q.id.getD "") = dupMsg x := by rw [hxy]
          have hcnt := ih seen
          rw [if_pos (hxy ▸ hmem)] at hcnt
          rw [cntId, if_pos hid, show ("Duplicate requirement ID: " ++ q.id.getD "") = dupMsg x from hd,
            if_pos rfl, hcnt, if_pos (hxy ▸ hmem)]
          omega
        · have hid : ¬(q.id = some x) := by
            rw [hqe]; intro e; exact hxy (Option.some_inj.mp e)
          have hd : ¬(("Duplicate requirement ID: " ++ q.id.getD "") = dupMsg x) :=
            fun e => hxy (dupMsg_inj e)
          rw [cntId, if_neg hid, if_neg hd, ih seen]
          omega
      · have hcf : seen.contains (q.id.getD "") = false := by
          rw [contains_eq_memB]; simpa using hmem
        rw [idErrList]
        simp only [hq, hcf, Bool.not_true, Bool.false_eq_true, if_false]
        by_cases hxy : q.id.getD "" = x
        · have hid : q.id = some x := by rw [hqe, hxy]
          have hxseen : x ∉ seen := hxy ▸ hmem
          have hxin : x ∈ seen ++ [q.id.getD ""] := by
            rw [hxy]; exact List.mem_append.mpr (Or.inr (by simp))
          have hcnt := ih (seen ++ [q.id.getD ""])
          rw [if_pos hxin] at hcnt
          rw [cntId, if_pos hid, hcnt, if_neg hxseen]
          omega
        · have hid : ¬(q.id = some x) := by
            rw [hqe]; intro e; exact hxy (Option.some_inj.mp e)
          have hsame : (x ∈ seen ++ [q.id.getD ""]) ↔ x ∈ seen := by
            constructor
            · intro hc
              rcases List.mem_append.mp hc with hc | hc
              · exact hc
              · exact absurd (List.mem_singleton.mp hc) (fun e => hxy e.symm)
            · intro hc; exact List.mem_append.mpr (Or.inl hc)
          have hcnt := ih (seen ++ [q.id.getD ""])
          rw [cntId, if_neg hid, hcnt]
          by_cases hs : x ∈ seen
          · rw [if_pos (hsame.mpr hs), if_pos hs]
            omega
          · rw [if_neg (fun hc => hs (hsame.mp hc)), if_neg hs]
            omega
    · have hid : ¬(q.id = some x) := by
        intro e
        rw [e, truthyS_some_iff] at hq
        exact hq hx
      rw [idErrList]
      simp only [hq, Bool.not_false, if_true, countStr]
      rw [if_neg (missing_ne_dupMsg x), cntId, if_neg hid, ih seen]
      omega

theorem countStr_idErr_missing :
    ∀ (qs : List Requirement) (seen : List String),
      countStr (idErrList qs seen) "Requirement missing ID" = cntNoId qs := by
  intro qs
  induction qs with
  | nil => intro seen; simp [idErrList, cntNoId, countStr]
  | cons q qs ih =>
    intro seen
    by_cases hq : truthyS q.id
    · by_cases hmem : q.id.getD "" ∈ seen
      · have hcf : seen.contains (q.id.getD "") = true := by
          rw [contains_eq_memB]; simpa using hmem
        rw [idErrList]
        simp only [hq, hcf, Bool.not_true, Bool.false_eq_true, if_false, if_true, countStr]
        have hne2 : ¬(("Duplicate requirement ID: " ++ q.id.getD "") = "Requirement missing ID") :=
          fun e => missing_ne_dupMsg (q.id.getD "") (Eq.symm e)
        rw [if_neg hne2, cntNoId, if_pos hq, ih seen]
      · have hcf : seen.contains (q.id.getD "") = false := by
          rw [contains_eq_memB]; simpa using hmem
        rw [idErrList]
        simp only [hq, hcf, Bool.not_true, Bool.false_eq_true, if_false]
        rw [cntNoId, if_pos hq, ih (seen ++ [q.id.getD ""])]
        omega
    · rw [idErrList]
      simp only [hq, Bool.not_false, if_true, countStr, if_pos rfl]
      rw [cntNoId, if_neg hq, ih seen]

theorem countStr_tcErr_dup (x : String) :
    ∀ (l : List TestCase) (i : Nat), countStr (tcErrList l i) (dupMsg x) = 0 := by
  intro l
  induction l with
  | nil => intro i; simp [tcErrList, countStr]
  | cons tc rest ih =>
    intro i
    by_cases h : truthyS tc.id <;>
      simp [tcErrList, countStr, h, ih (i + 1), tcMissing_ne_dupMsg i x]

theorem countStr_tcErr_missing :
    ∀ (l : List TestCase) (i : Nat), countStr (tcErrList l i) "Requirement missing ID" = 0 := by
  intro l
  induction l with
  | nil => intro i; simp [tcErrList, countStr]
  | cons tc rest ih =>
    intro i
    by_cases h : truthyS tc.id <;>
      simp [tcErrList, countStr, h, ih (i + 1), tcMissing_ne_missing i]

theorem countStr_yamlErrs_dup (spec : Spec) (x : String) (hx : x ≠ "") :
    countStr (yamlErrs spec) (dupMsg x) = cntId (allReqs spec) x - 1 := by
  unfold yamlErrs
  rw [countStr_append, countStr_append]
  have h1 : countStr (if !truthyS spec.name then ["Missing required field: name"] else []) (dupMsg x) = 0 := by
    by_cases h : truthyS spec.name <;>
      simp [h, countStr, nameMsg_ne_dupMsg x]
  have h2 :
      countStr (match spec.requirements with
        | none => []
        | some reqs => idErrList (reqs.functional.getD [] ++ reqs.non_functional.getD []) [])
        (dupMsg x) = cntId (allReqs spec) x - 1 := by
    cases hr : spec.requirements with
    | none =>
      have : allReqs spec = [] := by unfold allReqs; rw [hr]
      simp [this, countStr, cntId]
    | some reqs =>
      have ha : allReqs spec = reqs.functional.getD [] ++ reqs.non_functional.getD [] := by
        unfold allReqs; rw [hr]
      show countStr (idErrList (reqs.functional.getD [] ++ reqs.non_functional.getD []) [])
          (dupMsg x) = cntId (allReqs spec) x - 1
      rw [← ha, countStr_idErr_dup x hx (allReqs spec) []]
      simp
  have h3 :
      countStr (match spec.test_cases with
        | none => []
        | some l => tcErrList l 0) (dupMsg x) = 0 := by
    cases ht : spec.test_cases with
    | none => simp [countStr]
    | some l =>
      show countStr (tcErrList l 0) (dupMsg x) = 0
      exact countStr_tcErr_dup x l 0
  rw [h1, h2, h3]
  omega

theorem countStr_yamlErrs_missing (spec : Spec) :
    countStr (yamlErrs spec) "Requirement missing ID" = cntNoId (allReqs spec) := by
  unfold yamlErrs
  rw [countStr_append, countStr_append]
  have h1 : countStr (if !truthyS spec.name then ["Missing required field: name"] else [])
      "Requirement missing ID" = 0 := by
    by_cases h : truthyS spec.name <;> simp [h, countStr]
  have h2 :
      countStr (match spec.requirements with
        | none => []
        | some reqs => idErrList (reqs.functional.getD [] ++ reqs.non_functional.getD []) [])
        "Requirement missing ID" = cntNoId (allReqs spec) := by
    cases hr : spec.requirements with
    | none =>
      have : allReqs spec = [] := by unfold allReqs; rw [hr]
      simp [this, countStr, cntNoId]
    | some reqs =>
      have ha : allReqs spec = reqs.functional.getD [] ++ reqs.non_functional.getD [] := by
        unfold allReqs; rw [hr]
      show countStr (idErrList (reqs.functional.getD [] ++ reqs.non_functional.getD []) [])
          "Requirement missing ID" = cntNoId (allReqs spec)
      rw [← ha]
      exact countStr_idErr_missing (allReqs spec) []
  have h3 :
      countStr (match spec.test_cases with
        | none => []
        | some l => tcErrList l 0) "Requirement missing ID" = 0 := by
    cases ht : spec.test_cases with
    | none => simp [countStr]
    | some l =>
      show countStr (tcErrList l 0) "Requirement missing ID" = 0
      exact countStr_tcErr_missing l 0
  rw [h1, h2, h3]
  omega

/-- C4: over `functional ++ non_functional`, each occurrence of a truthy
id after its first produces exactly one `Duplicate requirement ID: <id>`
error (the first occurrence is silent), each falsy-id entry produces one
`Requirement missing ID` error, and either condition forces
`valid = false`. -/
theorem C4_duplicate_ids :
    ∀ (dec : String → Except String (Option Spec)) (content fn : String) (spec : Spec),
      (extOf fn = "yaml" ∨ extOf fn = "yml") → dec content = Except.ok (some spec) →
      (∀ x, x ≠ "" →
        countStr (validate dec content fn).errors (dupMsg x) = cntId (allReqs spec) x - 1) ∧
      countStr (validate dec content fn).errors "Requirement missing ID" =
        cntNoId (allReqs spec) ∧
      (∀ x, x ≠ "" → 2 ≤ cntId (allReqs spec) x → (validate dec content fn).valid = false) ∧
      (1 ≤ cntNoId (allReqs spec) → (validate dec content fn).valid = false) := by
  intro dec content fn spec h hdec
  have hv : validate dec content fn =
      ⟨true && (yamlErrs spec).isEmpty, [] ++ yamlErrs spec, [] ++ yamlWarns spec⟩ := by
    rw [validate_yaml_dispatch dec content fn h, hdec]
    show validateYAMLdoc spec ⟨true, [], []⟩ = _
    rw [validateYAMLdoc_eq]
  rw [hv]
  simp only [List.nil_append, Bool.true_and]
  refine ⟨fun x hx => countStr_yamlErrs_dup spec x hx, countStr_yamlErrs_missing spec, ?_, ?_⟩
  · intro x hx hcnt
    have hc := countStr_yamlErrs_dup spec x hx
    have hpos : 0 < countStr (yamlErrs spec) (dupMsg x) := by omega
    have hne := countStr_pos_ne_nil hpos
    show (yamlErrs spec).isEmpty = false
    cases hyl : yamlErrs spec with
    | nil => exact absurd hyl hne
    | cons a as => rfl
  · intro hcnt
    have hc := countStr_yamlErrs_missing spec
    have hpos : 0 < countStr (yamlErrs spec) "Requirement missing ID" := by omega
    have hne := countStr_pos_ne_nil hpos
    show (yamlErrs spec).isEmpty = false
    cases hyl : yamlErrs spec with
    | nil => exact absurd hyl hne
    | cons a as => rfl

/-- A document in which the id `A` occurs twice. -/
def doc4 : Spec :=
  { name := some "t", description := none,
    requirements := some ⟨some [⟨some "A", some "d", none, none⟩,
      ⟨some "A", some "e", none, none⟩], none⟩,
    user_stories := none, test_cases := none }

/-- Models `YAML.parse` on a document whose functional requirements reuse
the id `A`. -/
def dec4 : String → Except String (Option Spec) := fun _ => Except.ok (some doc4)

/-- Witness for C4 at the concrete duplicated-id document. -/
theorem C4_duplicate_ids_witness :
    countStr (validate dec4 "c" "d.yaml").errors (dupMsg "A") = cntId (allReqs doc4) "A" - 1 ∧
    (validate dec4 "c" "d.yaml").valid = false :=
  ⟨(C4_duplicate_ids dec4 "c" "d.yaml" doc4 (Or.inl rfl) rfl).1 "A" (by decide),
   (C4_duplicate_ids dec4 "c" "d.yaml" doc4 (Or.inl rfl) rfl).2.2.1 "A" (by decide) (by decide)⟩

/-! ### Verbatim substrings of the generated scaffold (C8) -/

/-- `p` occurs verbatim (contiguously) in `s`. -/
def Substr (p s : String) : Prop := ∃ x y : String, s = x ++ (p ++ y)

theorem substr_trans {p m s : String} (h1 : Substr p m) (h2 : Substr m s) : Substr p s := by
  obtain ⟨x, y, hxy⟩ := h1
  obtain ⟨a, b, hab⟩ := h2
  refine ⟨a ++ x, y ++ b, ?_⟩
  rw [hab, hxy]
  simp only [strApp_assoc]

theorem strConcat_mem_split {α : Type} (f : α → String) {a : α} :
    ∀ l : List α, a ∈ l → ∃ A B, strConcat (l.map f) = A ++ (f a ++ B) := by
  intro l
  induction l with
  | nil => intro h; cases h
  | cons hd tl ih =>
    intro h
    rcases List.mem_cons.mp h with h | h
    · subst h
      refine ⟨"", strConcat (tl.map f), ?_⟩
      rw [strNil_append]
      rfl
    · obtain ⟨A, B, hAB⟩ := ih h
      refine ⟨f hd ++ A, B, ?_⟩
      show f hd ++ strConcat (tl.map f) = f hd ++ A ++ (f a ++ B)
      rw [hAB, strApp_assoc]

theorem substr_frEntry {q : Requirement} {i d : String}
    (hi : q.id = some i) (hd : q.description = some d) :
    Substr i (frEntry q) ∧ Substr d (frEntry q) := by
  constructor
  · refine ⟨"    test(\x27",
      ": " ++ (d ++ ("\x27, () => \x7b\n      // TODO: Implement test for " ++
        (i ++ "\n      expect(true).toBe(true);\n    \x7d);\n\n"))), ?_⟩
    simp [frEntry, hi, hd, jsShow, strApp_assoc]
  · refine ⟨"    test(\x27" ++ (i ++ ": "),
      "\x27, () => \x7b\n      // TODO: Implement test for " ++
        (i ++ "\n      expect(true).toBe(true);\n    \x7d);\n\n"), ?_⟩
    simp [frEntry, hi, hd, jsShow, strApp_assoc]

theorem substr_frGroup {spec : Spec} {reqs : Requirements} {l : List Requirement}
    {q : Requirement} (hr : spec.requirements = some reqs) (hf : reqs.functional = some l)
    (hq : q ∈ l) : Substr (frEntry q) (frGroup spec) := by
  obtain ⟨A, B, hAB⟩ := strConcat_mem_split frEntry l hq
  refine ⟨"  describe(\x27Functional Requirements\x27, () => \x7b\n" ++ A,
    B ++ "  \x7d);\n\n", ?_⟩
  simp [frGroup, hr, hf, hAB, strApp_assoc]

theorem substr_generate_frGroup (spec : Spec) : Substr (frGroup spec) (generate spec) :=
  ⟨genHeader ++ genOpen spec, usGroup spec ++ (tcGroup spec ++ "\x7d);\n"),
    by simp [generate, strApp_assoc]⟩

/-- C8: a decoded YAML document with a functional requirement carrying an
id and a description round-trips: `generate` on the parsed model contains
both strings verbatim. -/
theorem C8_roundtrip :
    ∀ (dec : String → Except String (Option Spec)) (content fn : String) (spec : Spec)
      (reqs : Requirements) (l : List Requirement) (q : Requirement) (i d : String),
      (extOf fn = "yaml" ∨ extOf fn = "yml") → dec content = Except.ok (some spec) →
      spec.requirements = some reqs → reqs.functional = some l → q ∈ l →
      q.id = some i → q.description = some d →
      parse dec content fn = Except.ok (some spec) ∧
      Substr i (generate spec) ∧ Substr d (generate spec) := by
  intro dec content fn spec reqs l q i d h hdec hr hf hq hi hd
  obtain ⟨hsi, hsd⟩ := substr_frEntry hi hd
  have hg := substr_generate_frGroup spec
  have hfg := substr_frGroup hr hf hq
  exact ⟨parse_yaml_ok dec content fn (some spec) h hdec,
    substr_trans hsi (substr_trans hfg hg), substr_trans hsd (substr_trans hfg hg)⟩

/-- Witness for C8 at the concrete document `doc2` (id `FR-1`,
description `d`). -/
theorem C8_roundtrip_witness :
    parse dec2 "c" "a.yaml" = Except.ok (some doc2) ∧
    Substr "FR-1" (generate doc2) ∧ Substr "d" (generate doc2) :=
  C8_roundtrip dec2 "c" "a.yaml" doc2 ⟨some [⟨some "FR-1", some "d", none, none⟩], none⟩
    [⟨some "FR-1", some "d", none, none⟩] ⟨some "FR-1", some "d", none, none⟩ "FR-1" "d"
    (Or.inl rfl) rfl rfl rfl (by simp) rfl rfl

/-! ### The Markdown scanner's priority update (C7) -/

/-- Priority of the most recently pushed functional requirement. -/
def lastPrio (l : List MReq) : Option String := l.getLast?.map (fun r => r.priority)

theorem modifyLast_ne_nil {α : Type} (f : α → α) (y : α) (ys : List α) :
    modifyLast f (y :: ys) ≠ [] := by
  cases ys <;> simp [modifyLast]

theorem lastPrio_modifyLast_eq (h : MReq → MReq) (p : String)
    (hp : ∀ r, (h r).priority = p) :
    ∀ l : List MReq, l ≠ [] → lastPrio (modifyLast h l) = some p
  | [], hne => absurd rfl hne
  | [x], _ => by simp [lastPrio, modifyLast, hp]
  | x :: y :: ys, _ => by
    have hrec := lastPrio_modifyLast_eq h p hp (y :: ys) (by simp)
    rw [lastPrio] at hrec ⊢
    rw [modifyLast]
    rcases hm : modifyLast h (y :: ys) with _ | ⟨a, as⟩
    · exact absurd hm (modifyLast_ne_nil h y ys)
    · rw [List.getLast?_cons_cons, ← hm]
      exact hrec

theorem modifyLast_modifyLast {α : Type} (f g : α → α) :
    ∀ l : List α, modifyLast g (modifyLast f l) = modifyLast (fun x => g (f x)) l
  | [] => rfl
  | [x] => rfl
  | x :: y :: ys => by
    have ih := modifyLast_modifyLast f g (y :: ys)
    rw [modifyLast]
    rcases hm : modifyLast f (y :: ys) with _ | ⟨a, as⟩
    · exact absurd hm (modifyLast_ne_nil f y ys)
    · rw [hm] at ih
      show modifyLast g (x :: a :: as) = _
      rw [modifyLast, ih]
      rfl

/-- The spec's Markdown scenario input. -/
def mdScenario : String :=
  "\n## Functional Requirements\n1. **FR-001**: Add two numbers\n   - **Priority**: High\n\n## Test Cases\n- **ID**: TC-001\n"

/-- A section whose lower-cased title contains both
`functional requirement` and `test case`, with a test-case line between
the requirement and its Priority line. -/
def mdDual : String :=
  "## functional requirement test case\n- **FR-001**: x\n- **ID**: TC-001\n- **Priority**: High\n"

/-- The parsed model's functional list. -/
def funcOf (s : Spec) : List Requirement :=
  (s.requirements.getD ⟨none, none⟩).functional.getD []

/-- C7 counterexample: in `mdDual`, the `**Priority**: High` line comes
after the `**FR-001**:` line, before any next `## ` header, in a section
whose title contains "functional requirement" — yet FR-001 keeps priority
"medium", because the intervening `**ID**: TC-001` line made the test
case the current item, so the update went to it instead. -/
theorem C7_counterexample :
    containsL (sectionOf "## functional requirement test case".data) frSecPat = true ∧
    funcOf (parseMarkdown mdDual) =
      [⟨some "FR-001", some "x", some "medium", some "planned"⟩] ∧
    (some "medium" : Option String) ≠ some "high" := by
  refine ⟨by decide, by decide, by decide⟩

/-- C7 as amended: while the current section contains "functional
requirement" and the current item is still the last-pushed requirement, a
non-header line containing `**Priority**:` (and not itself a new
`**FR-**:` line) sets that requirement's priority to the text between the
first and second colons, trimmed, lower-cased, truncated at the first
`/`; the spec's scenario parses to exactly one requirement
(`FR-001`/`high`) and one test case (`TC-001`). -/
theorem C7_priority_update :
    (∀ (st : MDState) (line : List Char),
      containsL st.currentSection frSecPat = true →
      st.cur = CurTag.fr →
      st.functional ≠ [] →
      startsHdr line = false →
      frMatchL line = none →
      containsL line prioMark = true →
      lastPrio (stepLine st line).functional = some (String.mk (priorityOf line))) ∧
    parseMarkdown mdScenario =
      { name := some "", description := some "",
        requirements := some ⟨some [⟨some "FR-001", some "Add two numbers",
          some "high", some "planned"⟩], some []⟩,
        user_stories := some [],
        test_cases := some [⟨some "TC-001", some "", none, some [], some ""⟩] } := by
  constructor
  · intro st line hsec hcur hne hh hfr hprio
    obtain ⟨fl, tl, sec, cur⟩ := st
    simp only at hsec hcur hne
    subst hcur
    rw [stepLine, stepHdr, if_neg (by simp [hh])]
    rw [stepFR]
    simp only [hsec, if_true, hfr]
    have hguard : ((CurTag.fr != CurTag.noItem) && containsL line prioMark) = true := by
      rw [hprio]; rfl
    simp only [hguard, if_true]
    rw [stepTC]
    simp only
    have hfin : ∀ h2 : MReq → MReq, (∀ r, (h2 r).priority = String.mk (priorityOf line)) →
        lastPrio (modifyLast h2 fl) = some (String.mk (priorityOf line)) :=
      fun h2 hp => lastPrio_modifyLast_eq h2 (String.mk (priorityOf line)) hp fl hne
    by_cases hT : containsL sec tcSecPat = true
    · simp only [hT, if_true]
      cases htc : tcMatchL line with
      | some ds =>
        simp only
        have hg2 : (CurTag.tc != CurTag.noItem) = true := rfl
        simp only [hg2, if_true]
        by_cases hdm : containsL line descMark = true <;>
          by_cases hem : containsL line expMark = true <;>
          simp only [hdm, hem, if_true, if_false, Bool.false_eq_true] <;>
          exact hfin _ (fun r => rfl)
      | none =>
        simp only
        have hg2 : (CurTag.fr != CurTag.noItem) = true := rfl
        simp only [hg2, if_true]
        by_cases hdm : containsL line descMark = true <;>
          by_cases hem : containsL line expMark = true <;>
          simp only [hdm, hem, if_true, if_false, Bool.false_eq_true] <;>
          first
          | (rw [modifyLast_modifyLast]
             exact hfin _ (fun r => rfl))
          | exact hfin _ (fun r => rfl)
    · simp only [hT, Bool.false_eq_true, if_false]
      exact hfin _ (fun r => rfl)
  · decide

/-- Witness for C7's step-level part at a concrete state and line. -/
theorem C7_priority_update_witness :
    lastPrio (stepLine ⟨[⟨"FR-001", "x", "medium", "planned"⟩], [],
        "functional requirements".data, CurTag.fr⟩
      "- **Priority**: High".data).functional = some "high" :=
  C7_priority_update.1 _ "- **Priority**: High".data (by decide) rfl (by decide)
    (by decide) (by decide) (by decide)

/-! ### Invariants of the Markdown parser's output (C9) -/

/-- `FR-` followed by one or more digits. -/
def idFormB (s : String) : Bool :=
  match s.data with
  | 'F' :: 'R' :: '-' :: ds => !ds.isEmpty && ds.all Char.isDigit
  | _ => false

/-- Well-formed scanner requirement: id of the form `FR-<digits>` and
status `planned`. -/
def goodMReq (r : MReq) : Bool := idFormB r.id && (r.status == "planned")

/-- Non-empty description, scanner-side. -/
def descNEM (r : MReq) : Bool := !r.description.isEmpty

/-- Model-side mirror of `goodMReq`. -/
def goodReqB (q : Requirement) : Bool :=
  (match q.id with
   | some s => idFormB s
   | none => false) && (q.status == some "planned")

/-- Model-side mirror of `descNEM`. -/
def descNE (q : Requirement) : Bool :=
  match q.description with
  | some s => !s.isEmpty
  | none => false

/-- A section title driving both the functional-requirement and the
test-case block at once. -/
def dualSec (sec : List Char) : Bool := containsL sec frSecPat && containsL sec tcSecPat

/-- No `## ` header line of the content produces a dual section. -/
def noDualHdrs (content : String) : Bool :=
  (splitLines content.data).all (fun line => !(startsHdr line && dualSec (sectionOf line)))

theorem all_takeWhile {α : Type} (p : α → Bool) :
    ∀ l : List α, (l.takeWhile p).all p = true
  | [] => rfl
  | x :: xs => by
    rw [List.takeWhile]
    cases hp : p x
    · rfl
    · rw [List.all_cons, hp, Bool.true_and]
      exact all_takeWhile p xs

theorem wsDotPlus_some {t d : List Char} (h : wsDotPlus t = some d) : d ≠ [] := by
  induction t generalizing d with
  | nil => cases h
  | cons c cs ih =>
    rw [wsDotPlus] at h
    by_cases hw : c.isWhitespace
    · rw [if_pos hw] at h
      cases hr : wsDotPlus cs with
      | some r =>
        rw [hr] at h
        injection h with h
        subst h
        exact ih hr
      | none =>
        rw [hr] at h
        by_cases hd : dotChar c = true
        · rw [if_pos hd] at h
          injection h with h
          subst h
          rw [List.takeWhile]
          simp [hd]
        · rw [if_neg hd] at h
          cases h
    · rw [if_neg hw] at h
      by_cases hd : dotChar c = true
      · rw [if_pos hd] at h
        injection h with h
        subst h
        rw [List.takeWhile]
        simp [hd]
      · rw [if_neg hd] at h
        cases h

theorem frMatchAt_capture {cs ds d : List Char} (h : frMatchAt cs = some (ds, d)) :
    ds ≠ [] ∧ ds.all Char.isDigit = true ∧ d ≠ [] := by
  rw [frMatchAt] at h
  by_cases h1 : leadsWith "**FR-".data cs = true
  · rw [if_pos h1] at h
    by_cases h2 : ((cs.drop 5).takeWhile Char.isDigit).isEmpty = true
    · rw [if_pos h2] at h; cases h
    · rw [if_neg h2] at h
      by_cases h3 : leadsWith "**:".data ((cs.drop 5).dropWhile Char.isDigit) = true
      · rw [if_pos h3] at h
        cases hw : wsDotPlus (((cs.drop 5).dropWhile Char.isDigit).drop 3) with
        | none => rw [hw] at h; cases h
        | some w =>
          rw [hw] at h
          injection h with h
          obtain ⟨he1, he2⟩ := Prod.mk.injEq .. ▸ h
          refine ⟨?_, ?_, ?_⟩
          · intro e
            apply h2
            rw [he1, e]
            rfl
          · rw [← he1]
            exact all_takeWhile Char.isDigit (cs.drop 5)
          · rw [← he2]
            exact wsDotPlus_some hw
      · rw [if_neg h3] at h; cases h
  · rw [if_neg h1] at h; cases h

theorem frMatchL_capture :
    ∀ {line ds d : List Char}, frMatchL line = some (ds, d) →
      ds ≠ [] ∧ ds.all Char.isDigit = true ∧ d ≠ [] := by
  intro line
  induction line with
  | nil => intro ds d h; cases h
  | cons c cs ih =>
    intro ds d h
    rw [frMatchL] at h
    cases ha : frMatchAt (c :: cs) with
    | some r =>
      rw [ha] at h
      injection h with h
      subst h
      exact frMatchAt_capture ha
    | none =>
      rw [ha] at h
      exact ih h

theorem all_modifyLast {α : Type} (p : α → Bool) (f : α → α)
    (hf : ∀ x, p (f x) = p x) :
    ∀ l : List α, l.all p = true → (modifyLast f l).all p = true
  | [], h => h
  | [x], h => by
    simp only [modifyLast, List.all_cons, List.all_nil, Bool.and_true] at h ⊢
    rw [hf]
    exact h
  | x :: y :: ys, h => by
    rw [List.all_cons, Bool.and_eq_true] at h
    rw [modifyLast, List.all_cons, Bool.and_eq_true]
    exact ⟨h.1, all_modifyLast p f hf (y :: ys) h.2⟩

theorem idFormB_mk {ds : List Char} (h1 : ds ≠ []) (h2 : ds.all Char.isDigit = true) :
    idFormB (String.mk ('F' :: 'R' :: '-' :: ds)) = true := by
  show (!ds.isEmpty && ds.all Char.isDigit) = true
  cases ds with
  | nil => exact absurd rfl h1
  | cons c cs => simp [h2]

theorem goodMReq_new {ds d : List Char} (h1 : ds ≠ []) (h2 : ds.all Char.isDigit = true) :
    goodMReq ⟨String.mk ('F' :: 'R' :: '-' :: ds), String.mk d, "medium", "planned"⟩ = true := by
  rw [goodMReq]
  show (idFormB (String.mk ('F' :: 'R' :: '-' :: ds)) && ("planned" == "planned")) = true
  rw [idFormB_mk h1 h2]
  rfl

theorem stepHdr_functional (line : List Char) (st : MDState) :
    (stepHdr line st).functional = st.functional := by
  rw [stepHdr]
  split <;> rfl

theorem stepFR_invA (line : List Char) (st : MDState)
    (h : st.functional.all goodMReq = true) :
    (stepFR line st).functional.all goodMReq = true := by
  obtain ⟨fl, tl, sec, cur⟩ := st
  have hfl : fl.all goodMReq = true := h
  unfold stepFR
  try dsimp only
  by_cases hs : containsL sec frSecPat = true
  case neg => rw [if_neg hs]; exact hfl
  rw [if_pos hs]
  cases hm : frMatchL line with
  | some r =>
    obtain ⟨ds, d⟩ := r
    obtain ⟨hc1, hc2, _⟩ := frMatchL_capture hm
    have hl1 : (fl ++
        [(⟨String.mk ('F' :: 'R' :: '-' :: ds), String.mk d, "medium", "planned"⟩ : MReq)]).all
          goodMReq = true := by
      rw [List.all_append, Bool.and_eq_true]
      exact ⟨hfl, by simp [List.all_cons, goodMReq_new hc1 hc2]⟩
    simp only [hm]
    try dsimp only
    by_cases hp : containsL line prioMark = true
    · rw [if_pos (by rw [hp]; rfl)]
      exact all_modifyLast goodMReq
        (fun r => { r with priority := String.mk (priorityOf line) }) (fun x => rfl) _ hl1
    · rw [if_neg (by simp [hp])]
      exact hl1
  | none =>
    simp only [hm]
    try dsimp only
    cases cur with
    | noItem =>
      rw [if_neg (by simp)]
      exact hfl
    | tc =>
      by_cases hp : containsL line prioMark = true
      · rw [if_pos (by rw [hp]; rfl)]
        exact hfl
      · rw [if_neg (by simp [hp])]
        exact hfl
    | fr =>
      by_cases hp : containsL line prioMark = true
      · rw [if_pos (by rw [hp]; rfl)]
        exact all_modifyLast goodMReq
          (fun r => { r with priority := String.mk (priorityOf line) }) (fun x => rfl) _ hfl
      · rw [if_neg (by simp [hp])]
        exact hfl

theorem stepTC_invA (line : List Char) (st : MDState)
    (h : st.functional.all goodMReq = true) :
    (stepTC line st).functional.all goodMReq = true := by
  obtain ⟨fl, tl, sec, cur⟩ := st
  have hfl : fl.all goodMReq = true := h
  unfold stepTC
  try dsimp only
  by_cases hs : containsL sec tcSecPat = true
  case neg => rw [if_neg hs]; exact hfl
  rw [if_pos hs]
  cases hm : tcMatchL line with
  | some ds =>
    simp only [hm]
    try dsimp only
    rw [if_pos (show (CurTag.tc != CurTag.noItem) = true from rfl)]
    by_cases hdm : containsL line descMark = true <;>
      by_cases hem : containsL line expMark = true
    · rw [if_pos hdm]
      rw [if_pos hem]
      exact hfl
    · rw [if_pos hdm, if_neg (show ¬(containsL line expMark = true) from by simp [hem])]
      exact hfl
    · rw [if_neg (show ¬(containsL line descMark = true) from by simp [hdm]), if_pos hem]
      exact hfl
    · rw [if_neg (show ¬(containsL line descMark = true) from by simp [hdm]), if_neg (show ¬(containsL line expMark = true) from by simp [hem])]
      exact hfl
  | none =>
    simp only [hm]
    try dsimp only
    cases cur with
    | noItem =>
      rw [if_neg (by simp)]
      exact hfl
    | fr =>
      rw [if_pos (show (CurTag.fr != CurTag.noItem) = true from rfl)]
      by_cases hdm : containsL line descMark = true <;>
        by_cases hem : containsL line expMark = true
      · rw [if_pos hdm, if_pos hem]
        exact all_modifyLast goodMReq
          (fun r => { r with description := String.mk (trimL (afterColon line)) }) (fun x => rfl) _ hfl
      · rw [if_pos hdm, if_neg (show ¬(containsL line expMark = true) from by simp [hem])]
        exact all_modifyLast goodMReq
          (fun r => { r with description := String.mk (trimL (afterColon line)) }) (fun x => rfl) _ hfl
      · rw [if_neg (show ¬(containsL line descMark = true) from by simp [hdm]), if_pos hem]
        exact hfl
      · rw [if_neg (show ¬(containsL line descMark = true) from by simp [hdm]), if_neg (show ¬(containsL line expMark = true) from by simp [hem])]
        exact hfl
    | tc =>
      rw [if_pos (show (CurTag.tc != CurTag.noItem) = true from rfl)]
      by_cases hdm : containsL line descMark = true <;>
        by_cases hem : containsL line expMark = true
      · rw [if_pos hdm, if_pos hem]
        exact hfl
      · rw [if_pos hdm, if_neg (show ¬(containsL line expMark = true) from by simp [hem])]
        exact hfl
      · rw [if_neg (show ¬(containsL line descMark = true) from by simp [hdm]), if_pos hem]
        exact hfl
      · rw [if_neg (show ¬(containsL line descMark = true) from by simp [hdm]), if_neg (show ¬(containsL line expMark = true) from by simp [hem])]
        exact hfl

theorem stepLine_invA (st : MDState) (line : List Char)
    (h : st.functional.all goodMReq = true) :
    (stepLine st line).functional.all goodMReq = true := by
  rw [stepLine]
  apply stepTC_invA
  apply stepFR_invA
  rw [stepHdr_functional]
  exact h

theorem foldl_invA :
    ∀ (lines : List (List Char)) (st : MDState), st.functional.all goodMReq = true →
      (lines.foldl stepLine st).functional.all goodMReq = true
  | [], _, h => h
  | line :: rest, st, h => by
    rw [List.foldl_cons]
    exact foldl_invA rest (stepLine st line) (stepLine_invA st line h)

theorem strMk_not_empty {d : List Char} (h : d ≠ []) : (String.mk d).isEmpty = false := by
  cases hie : (String.mk d).isEmpty
  · rfl
  · have he := (String.isEmpty_iff _).mp hie
    have hd : d = [] := congrArg String.data he
    exact absurd hd h

theorem descNEM_new {ds d : List Char} (hd : d ≠ []) :
    descNEM ⟨String.mk ('F' :: 'R' :: '-' :: ds), String.mk d, "medium", "planned"⟩ = true := by
  show (!(String.mk d).isEmpty) = true
  rw [strMk_not_empty hd]
  rfl

/-- The state facts that guarantee descriptions survive: all descriptions
non-empty, the current-item-is-a-requirement flag only under a
functional-requirement section, and the current section not dual. -/
def stInvB (st : MDState) : Prop :=
  st.functional.all descNEM = true ∧
  (st.cur = CurTag.fr → containsL st.currentSection frSecPat = true) ∧
  dualSec st.currentSection = false

theorem stepHdr_invB (line : List Char) (st : MDState) (h : stInvB st)
    (hnd : startsHdr line = true → dualSec (sectionOf line) = false) :
    stInvB (stepHdr line st) := by
  rw [stepHdr]
  by_cases hh : startsHdr line = true
  · rw [if_pos hh]
    exact ⟨h.1, fun hc => CurTag.noConfusion hc, hnd hh⟩
  · rw [if_neg hh]
    exact h

theorem stepFR_invB (line : List Char) (st : MDState) (h : stInvB st) :
    stInvB (stepFR line st) := by
  obtain ⟨fl, tl, sec, cur⟩ := st
  obtain ⟨hB1, hB2, hB3⟩ := h
  have hB1' : fl.all descNEM = true := hB1
  unfold stepFR
  try dsimp only
  by_cases hs : containsL sec frSecPat = true
  case neg => rw [if_neg hs]; exact ⟨hB1', hB2, hB3⟩
  rw [if_pos hs]
  cases hm : frMatchL line with
  | some r =>
    obtain ⟨ds, d⟩ := r
    obtain ⟨_, _, hc3⟩ := frMatchL_capture hm
    have hl1 : (fl ++
        [(⟨String.mk ('F' :: 'R' :: '-' :: ds), String.mk d, "medium", "planned"⟩ : MReq)]).all
          descNEM = true := by
      rw [List.all_append, Bool.and_eq_true]
      exact ⟨hB1', by simp [List.all_cons, descNEM_new hc3]⟩
    simp only [hm]
    try dsimp only
    by_cases hp : containsL line prioMark = true
    · rw [if_pos (by rw [hp]; rfl)]
      exact ⟨all_modifyLast descNEM
        (fun r => { r with priority := String.mk (priorityOf line) }) (fun x => rfl) _ hl1,
        fun _ => hs, hB3⟩
    · rw [if_neg (by simp [hp])]
      exact ⟨hl1, fun _ => hs, hB3⟩
  | none =>
    simp only [hm]
    try dsimp only
    cases cur with
    | noItem =>
      rw [if_neg (by simp)]
      exact ⟨hB1', hB2, hB3⟩
    | tc =>
      by_cases hp : containsL line prioMark = true
      · rw [if_pos (by rw [hp]; rfl)]
        exact ⟨hB1', fun hc => CurTag.noConfusion hc, hB3⟩
      · rw [if_neg (by simp [hp])]
        exact ⟨hB1', fun hc => CurTag.noConfusion hc, hB3⟩
    | fr =>
      by_cases hp : containsL line prioMark = true
      · rw [if_pos (by rw [hp]; rfl)]
        exact ⟨all_modifyLast descNEM
          (fun r => { r with priority := String.mk (priorityOf line) }) (fun x => rfl) _ hB1',
          fun _ => hs, hB3⟩
      · rw [if_neg (by simp [hp])]
        exact ⟨hB1', fun _ => hs, hB3⟩

theorem stepTC_invB (line : List Char) (st : MDState) (h : stInvB st) :
    stInvB (stepTC line st) := by
  obtain ⟨fl, tl, sec, cur⟩ := st
  obtain ⟨hB1, hB2, hB3⟩ := h
  have hB1' : fl.all descNEM = true := hB1
  unfold stepTC
  try dsimp only
  by_cases hs : containsL sec tcSecPat = true
  case neg => rw [if_neg hs]; exact ⟨hB1', hB2, hB3⟩
  rw [if_pos hs]
  have hfr : containsL sec frSecPat = false := by
    have hd := hB3
    rw [dualSec] at hd
    cases hcf : containsL sec frSecPat
    · rfl
    · rw [hcf, hs] at hd
      cases hd
  have hcur : cur ≠ CurTag.fr := fun hc => by
    have := hB2 hc
    rw [hfr] at this
    cases this
  cases hm : tcMatchL line with
  | some ds =>
    simp only [hm]
    try dsimp only
    rw [if_pos (show (CurTag.tc != CurTag.noItem) = true from rfl)]
    by_cases hdm : containsL line descMark = true <;>
      by_cases hem : containsL line expMark = true
    · rw [if_pos hdm, if_pos hem]
      exact ⟨hB1', fun hc => CurTag.noConfusion hc, hB3⟩
    · rw [if_pos hdm, if_neg (show ¬(containsL line expMark = true) from by simp [hem])]
      exact ⟨hB1', fun hc => CurTag.noConfusion hc, hB3⟩
    · rw [if_neg (show ¬(containsL line descMark = true) from by simp [hdm]), if_pos hem]
      exact ⟨hB1', fun hc => CurTag.noConfusion hc, hB3⟩
    · rw [if_neg (show ¬(containsL line descMark = true) from by simp [hdm]),
        if_neg (show ¬(containsL line expMark = true) from by simp [hem])]
      exact ⟨hB1', fun hc => CurTag.noConfusion hc, hB3⟩
  | none =>
    simp only [hm]
    try dsimp only
    cases cur with
    | fr => exact absurd rfl hcur
    | noItem =>
      rw [if_neg (by simp)]
      exact ⟨hB1', hB2, hB3⟩
    | tc =>
      rw [if_pos (show (CurTag.tc != CurTag.noItem) = true from rfl)]
      by_cases hdm : containsL line descMark = true <;>
        by_cases hem : containsL line expMark = true
      · rw [if_pos hdm, if_pos hem]
        exact ⟨hB1', fun hc => CurTag.noConfusion hc, hB3⟩
      · rw [if_pos hdm, if_neg (show ¬(containsL line expMark = true) from by simp [hem])]
        exact ⟨hB1', fun hc => CurTag.noConfusion hc, hB3⟩
      · rw [if_neg (show ¬(containsL line descMark = true) from by simp [hdm]), if_pos hem]
        exact ⟨hB1', fun hc => CurTag.noConfusion hc, hB3⟩
      · rw [if_neg (show ¬(containsL line descMark = true) from by simp [hdm]),
          if_neg (show ¬(containsL line expMark = true) from by simp [hem])]
        exact ⟨hB1', fun hc => CurTag.noConfusion hc, hB3⟩

theorem stepLine_invB (st : MDState) (line : List Char) (h : stInvB st)
    (hnd : startsHdr line = true → dualSec (sectionOf line) = false) :
    stInvB (stepLine st line) := by
  rw [stepLine]
  exact stepTC_invB _ _ (stepFR_invB _ _ (stepHdr_invB _ _ h hnd))

theorem foldl_invB :
    ∀ (lines : List (List Char)) (st : MDState), stInvB st →
      (∀ line ∈ lines, startsHdr line = true → dualSec (sectionOf line) = false) →
      stInvB (lines.foldl stepLine st)
  | [], _, h, _ => h
  | line :: rest, st, h, hnd => by
    rw [List.foldl_cons]
    exact foldl_invB rest (stepLine st line)
      (stepLine_invB st line h (hnd line (by simp)))
      (fun l hl => hnd l (List.mem_cons_of_mem _ hl))

theorem all_map_reqOfM_good (l : List MReq) :
    (l.map reqOfM).all goodReqB = l.all goodMReq := by
  induction l with
  | nil => rfl
  | cons x xs ih =>
    show (goodReqB (reqOfM x) && (xs.map reqOfM).all goodReqB) = (goodMReq x && xs.all goodMReq)
    rw [ih]
    rfl

theorem all_map_reqOfM_desc (l : List MReq) :
    (l.map reqOfM).all descNE = l.all descNEM := by
  induction l with
  | nil => rfl
  | cons x xs ih =>
    show (descNE (reqOfM x) && (xs.map reqOfM).all descNE) = (descNEM x && xs.all descNEM)
    rw [ih]
    rfl

theorem noDualHdrs_spec {content : String} (h : noDualHdrs content = true) :
    ∀ line ∈ splitLines content.data, startsHdr line = true → dualSec (sectionOf line) = false := by
  intro line hl hh
  have hx := List.all_eq_true.mp h line hl
  rw [hh] at hx
  simpa using hx

/-- A Markdown input repeating the same `**FR-001**:` line. -/
def mdDup : String := "## Functional Requirements\n- **FR-001**: a\n- **FR-001**: a\n"

/-- A dual-titled section whose `**Description**:` line overwrites the
requirement's description with the empty string. -/
def mdWipe : String := "## functional requirement test case\n- **FR-001**: x\n- **Description**:\n"

/-- C9 counterexample: in a section whose title contains both "functional
requirement" and "test case", a `**Description**:` line writes through
`currentItem` onto the requirement, here emptying its description — so
descriptions of parsed requirements are not always non-empty. -/
theorem C9_counterexample :
    funcOf (parseMarkdown mdWipe) =
      [⟨some "FR-001", some "", some "medium", some "planned"⟩] ∧
    descNE ⟨some "FR-001", some "", some "medium", some "planned"⟩ = false :=
  ⟨by decide, by decide⟩

/-- C9 as amended: every Markdown parse has name `""`, description `""`,
empty `user_stories` and `non_functional`; every functional entry has an
id `FR-<digits>` and status `planned`; descriptions are non-empty
provided no `## ` header's lower-cased title contains both "functional
requirement" and "test case" (a dual section can overwrite them);
id uniqueness is not guaranteed (a repeated `**FR-001**:` line yields
duplicate ids). -/
theorem C9_markdown_invariants :
    (∀ content : String,
      (parseMarkdown content).name = some "" ∧
      (parseMarkdown content).description = some "" ∧
      (parseMarkdown content).user_stories = some [] ∧
      (parseMarkdown content).requirements =
        some ⟨some (funcOf (parseMarkdown content)), some []⟩ ∧
      (funcOf (parseMarkdown content)).all goodReqB = true ∧
      (noDualHdrs content = true → (funcOf (parseMarkdown content)).all descNE = true)) ∧
    (funcOf (parseMarkdown mdDup)).map (fun q => q.id) =
      [some "FR-001", some "FR-001"] := by
  constructor
  · intro content
    refine ⟨rfl, rfl, rfl, rfl, ?_, ?_⟩
    · show ((runMD content).functional.map reqOfM).all goodReqB = true
      rw [all_map_reqOfM_good]
      exact foldl_invA _ mdInit rfl
    · intro hnd
      show ((runMD content).functional.map reqOfM).all descNE = true
      rw [all_map_reqOfM_desc]
      exact (foldl_invB _ mdInit
        ⟨rfl, fun hc => CurTag.noConfusion hc, by decide⟩ (noDualHdrs_spec hnd)).1
  · decide

/-- Witness for C9 at a concrete dual-free input. -/
theorem C9_markdown_invariants_witness :
    (funcOf (parseMarkdown "## Functional Requirements\n- **FR-002**: b\n")).all descNE = true :=
  ((C9_markdown_invariants.1 "## Functional Requirements\n- **FR-002**: b\n").2.2.2.2.2) (by decide)

end P2P
